import Mathlib

/-!
# Verification of the sdrpp_radiosonde RS41 decoder core

Shallow embedding of `src/decode/rs41/decoder.cpp` (RS41 frame
descrambling, interleaved Reed-Solomon correction, subframe parsing with
CRC validation, incremental calibration assembly, and the PTU telemetry
math), together with theorems settling the frozen specification claims.

Bytes are modelled as `Nat` values below 256; machine bit operations use
`Nat` bitwise primitives (`&&&`, `|||`, `^^^`, `<<<`, `>>>`) with explicit
masking exactly where the C code truncates.  Single-precision float
arithmetic in the telemetry computer is modelled over `ℚ` (the operations
exercised by the claims are exact), with the IEEE NaN sentinel modelled as
`Option.none`.

The repository's headers (`rs41.h`, `decoder.hpp`, `utils.h`) are not part
of the sources; the protocol constants and the `crc16` routine they
provide are modelled from the specification, as flagged in the individual
doc comments.
-/

namespace RS41

/-! ## Protocol constants

Modelled from the spec: the constants below live in the repository header
`rs41.h`, which is absent from the sources.  The spec fixes them as
protocol constants of the RS41 frame format: a 64-byte pseudorandom
descrambling sequence (the table `_prn` in `decoder.cpp` has 64 entries),
a 263-byte data region plus a 198-byte extension region (so that the
interleaving-2 Reed-Solomon code RS(255,231) with 24 parity symbols per
codeword covers the flag byte plus payload exactly: 1 + 263 = 2*132 and
1 + 263 + 198 = 2*231), and an 816-byte calibration table split into 51
fragments of 16 bytes (the table `_defaultCalibData` in `decoder.cpp` has
816 entries). -/

/-- Modelled from the spec: period of the pseudorandom descrambling
sequence (`RS41_PRN_PERIOD` in the missing `rs41.h`). -/
def RS41_PRN_PERIOD : Nat := 64

/-- Modelled from the spec: length of the frame data region
(`RS41_DATA_LEN` in the missing `rs41.h`). -/
def RS41_DATA_LEN : Nat := 263

/-- Modelled from the spec: length of the extension (XDATA) region
(`RS41_XDATA_LEN` in the missing `rs41.h`). -/
def RS41_XDATA_LEN : Nat := 198

/-- Modelled from the spec: Reed-Solomon interleaving depth
(`RS41_REEDSOLOMON_INTERLEAVING` in the missing `rs41.h`). -/
def RS41_REEDSOLOMON_INTERLEAVING : Nat := 2

/-- Modelled from the spec: Reed-Solomon codeword length
(`RS41_REEDSOLOMON_N` in the missing `rs41.h`). -/
def RS41_REEDSOLOMON_N : Nat := 255

/-- Modelled from the spec: Reed-Solomon message length
(`RS41_REEDSOLOMON_K` in the missing `rs41.h`). -/
def RS41_REEDSOLOMON_K : Nat := 231

/-- Modelled from the spec: Reed-Solomon parity symbol count per codeword
(`RS41_REEDSOLOMON_T` in the missing `rs41.h`). -/
def RS41_REEDSOLOMON_T : Nat := 24

/-- Modelled from the spec: size in bytes of one calibration fragment
(`RS41_CALIB_FRAGSIZE` in the missing `rs41.h`). -/
def RS41_CALIB_FRAGSIZE : Nat := 16

/-- Modelled from the spec: number of calibration fragments
(`RS41_CALIB_FRAGCOUNT` in the missing `rs41.h`). -/
def RS41_CALIB_FRAGCOUNT : Nat := 51

/-- Modelled from the spec: total byte size of the calibration table
(`sizeof(RS41Calibration)`, fixed by the 816-byte `_defaultCalibData`
blob in `decoder.cpp`). -/
def RS41_CALIB_SIZE : Nat := 816

/-- Modelled from the spec: byte size of the fragment-completion bitmap
(`sizeof(m_calibDataBitmap)` = `RS41_CALIB_FRAGCOUNT/8 + 1` = 7 in the
missing `decoder.hpp`). -/
def calibBitmapSize : Nat := 7

/-- Modelled from the spec: length of the sonde serial-number string
(`RS41_SERIAL_LEN` in the missing `rs41.h`; the serial in the spec's
examples, "S2093283", has 8 characters). -/
def RS41_SERIAL_LEN : Nat := 8

/-! ## Descrambler (`RS41Decoder::descramble`, claim C4) -/

/-- The fixed 64-byte pseudorandom sequence `_prn` from `decoder.cpp`
(lines 11-20). -/
def prnTable : List Nat :=
  [0x96, 0x83, 0x3e, 0x51, 0xb1, 0x49, 0x08, 0x98,
   0x32, 0x05, 0x59, 0x0e, 0xf9, 0x44, 0xc6, 0x26,
   0x21, 0x60, 0xc2, 0xea, 0x79, 0x5d, 0x6d, 0xa1,
   0x54, 0x69, 0x47, 0x0c, 0xdc, 0xe8, 0x5c, 0xf1,
   0xf7, 0x76, 0x82, 0x7f, 0x07, 0x99, 0xa2, 0x2c,
   0x93, 0x7c, 0x30, 0x63, 0xf5, 0x10, 0x2e, 0x61,
   0xd0, 0xbc, 0xb4, 0xb6, 0x06, 0xaa, 0xf4, 0x23,
   0x78, 0x6e, 0x3b, 0xae, 0xbf, 0x7b, 0x4c, 0xc1]

/-- One iteration of the inner bit-reordering loop of `descramble`
(line 194): `tmp |= ((b >> (7-j)) & 0x1) << j`. -/
def bitrevStep (b tmp j : Nat) : Nat :=
  tmp ||| (((b >>> (7 - j)) &&& 1) <<< j)

/-- The inner loop of `descramble` (lines 192-195): reverse the bit order
of a byte by accumulating `tmp` over `j = 0..7`. -/
def bitrevByte (b : Nat) : Nat :=
  (List.range 8).foldl (bitrevStep b) 0

/-- The per-byte transform of `descramble` (line 196):
`rawFrame[i] = 0xFF ^ tmp ^ _prn[i % RS41_PRN_PERIOD]`. -/
def descrambleByte (i b : Nat) : Nat :=
  0xFF ^^^ bitrevByte b ^^^ prnTable.getD (i % RS41_PRN_PERIOD) 0

/-- The outer loop of `descramble` (lines 191-197), updating the frame
bytes in place from index `i` onward. -/
def descrambleLoop (f : List Nat) (i : Nat) : List Nat :=
  if h : i < f.length then
    descrambleLoop (f.set i (descrambleByte i (f.getD i 0))) (i + 1)
  else f
termination_by f.length - i
decreasing_by simpa using Nat.sub_lt_sub_left h (Nat.lt_succ_self i)

/-- `RS41Decoder::descramble` (lines 183-198) on the frame's raw bytes. -/
def descramble (f : List Nat) : List Nat :=
  descrambleLoop f 0

set_option maxRecDepth 40000

/-- Bit-order reversal characterized by `testBit`: for every byte value,
bit `k` of `bitrevByte b` is bit `7-k` of `b`. -/
theorem bitrevByte_testBit (b k : Nat) (hb : b < 256) (hk : k < 8) :
    (bitrevByte b).testBit k = b.testBit (7 - k) := by
  revert hk
  revert k
  revert hb
  revert b
  decide

/-- `bitrevByte` maps bytes to bytes. -/
theorem bitrevByte_lt (b : Nat) (hb : b < 256) : bitrevByte b < 256 := by
  revert hb
  revert b
  decide

/-- The descramble loop keeps the frame length and rewrites exactly the
bytes from position `i` on, each by `descrambleByte`. -/
theorem descrambleLoop_getD (f : List Nat) (i j : Nat) :
    (descrambleLoop f i).length = f.length ∧
    (j < i → (descrambleLoop f i).getD j 0 = f.getD j 0) ∧
    (i ≤ j → j < f.length →
      (descrambleLoop f i).getD j 0 = descrambleByte j (f.getD j 0)) := by
  by_cases h : i < f.length
  · have hunf : descrambleLoop f i =
        descrambleLoop (f.set i (descrambleByte i (f.getD i 0))) (i + 1) := by
      rw [descrambleLoop]
      simp [h]
    rw [hunf]
    have ih := descrambleLoop_getD (f.set i (descrambleByte i (f.getD i 0))) (i + 1) j
    refine ⟨by simpa using ih.1, ?_, ?_⟩
    · intro hj
      rw [ih.2.1 (Nat.lt_succ_of_lt hj)]
      simp only [List.getD_eq_getElem?_getD, List.getElem?_set]
      have hne : ¬ i = j := Nat.ne_of_gt hj
      simp [hne]
    · intro hij hjlen
      rcases Nat.eq_or_lt_of_le hij with heq | hlt
      · subst heq
        rw [ih.2.1 (Nat.lt_succ_self i)]
        simp only [List.getD_eq_getElem?_getD, List.getElem?_set]
        simp [h]
      · have h2 := ih.2.2 hlt (by simpa using hjlen)
        rw [h2]
        simp only [List.getD_eq_getElem?_getD, List.getElem?_set]
        have hne : ¬ i = j := Nat.ne_of_lt hlt
        simp [hne]
  · have hunf : descrambleLoop f i = f := by
      rw [descrambleLoop]
      simp [h]
    rw [hunf]
    exact ⟨rfl, fun _ => rfl, fun hij hjlen => absurd (Nat.lt_of_le_of_lt hij hjlen) h⟩
termination_by f.length - i
decreasing_by simpa using Nat.sub_lt_sub_left h (Nat.lt_succ_self i)

/-- C4: descrambling a fixed-size frame block replaces the byte `b` at
every position `i` by `0xFF XOR reverse(b) XOR prn[i mod 64]`, where
`reverse` is bit-order reversal within the byte (characterized on byte
values by `testBit`) and `prn` is the fixed 64-byte pseudorandom table;
the transform is a total deterministic function covering every byte of
the frame (the length is preserved). -/
theorem c4_descramble_pointwise (f : List Nat) (i : Nat) (hi : i < f.length) :
    (descramble f).length = f.length ∧
    (descramble f).getD i 0 =
      0xFF ^^^ bitrevByte (f.getD i 0) ^^^ prnTable.getD (i % RS41_PRN_PERIOD) 0 ∧
    (f.getD i 0 < 256 →
      ∀ k, k < 8 → (bitrevByte (f.getD i 0)).testBit k = (f.getD i 0).testBit (7 - k)) := by
  have h := descrambleLoop_getD f 0 i
  refine ⟨h.1, ?_, ?_⟩
  · rw [descramble, h.2.2 (Nat.zero_le i) hi]
    rfl
  · intro hb k hk
    exact bitrevByte_testBit _ k hb hk

/-- Witness for C4 at the concrete two-byte block `[0x12, 0xAB]`. -/
theorem c4_descramble_pointwise_witness :
    (descramble [0x12, 0xAB]).length = 2 ∧
    (descramble [0x12, 0xAB]).getD 1 0 =
      0xFF ^^^ bitrevByte 0xAB ^^^ prnTable.getD (1 % RS41_PRN_PERIOD) 0 ∧
    ((0xAB : Nat) < 256 →
      ∀ k, k < 8 → (bitrevByte 0xAB).testBit k = (0xAB : Nat).testBit (7 - k)) :=
  c4_descramble_pointwise [0x12, 0xAB] 1 (by decide)

/-! ## CRC-16 and `RS41Decoder::crcCheck` (claim C5)

The `crc16` routine lives in `utils.h`, which is absent from the sources.
It is modelled from the spec: CRC-16 CCITT-FALSE, polynomial `0x1021`,
initial value `0xFFFF`, MSB-first. -/

/-- The CCITT-FALSE generator polynomial (spec section 6). -/
def CCITT_FALSE_POLY : Nat := 0x1021

/-- The CCITT-FALSE initial value (spec section 6). -/
def CCITT_FALSE_INIT : Nat := 0xFFFF

/-- Modelled from the spec: one shift step of the MSB-first CRC-16.  If
bit 15 of the running state is set, shift left and XOR the polynomial,
otherwise just shift left; the state is kept to 16 bits. -/
def crc16Step (s : Nat) : Nat :=
  if s.testBit 15 then ((s <<< 1) ^^^ CCITT_FALSE_POLY) &&& 0xFFFF
  else (s <<< 1) &&& 0xFFFF

/-- Modelled from the spec: fold one message byte into the CRC-16 state:
XOR it into the top 8 bits, then run eight shift steps. -/
def crc16Byte (s b : Nat) : Nat :=
  crc16Step (crc16Step (crc16Step (crc16Step
    (crc16Step (crc16Step (crc16Step (crc16Step (s ^^^ (b <<< 8)))))))))

/-- Modelled from the spec: `crc16(CCITT_FALSE_POLY, CCITT_FALSE_INIT,
data, len)` from `utils.h`, as called by `crcCheck` (line 242). -/
def crc16 (data : List Nat) : Nat :=
  data.foldl crc16Byte CCITT_FALSE_INIT

/-- An RS41 subframe as addressed by `crcCheck` and the parser loop:
1-byte type tag, 1-byte declared payload length, and the bytes following
the header (`len` payload bytes, the 2-byte CRC trailer, then whatever
else remains of the frame). -/
structure RS41Subframe where
  sftype : Nat
  len : Nat
  data : List Nat

/-- `RS41Decoder::crcCheck` (lines 239-246): CRC-16 over the `len`
payload bytes, compared against the two following bytes read
little-endian. -/
def crcCheck (sf : RS41Subframe) : Bool :=
  crc16 (sf.data.take sf.len) ==
    (sf.data.getD sf.len 0 ||| (sf.data.getD (sf.len + 1) 0) <<< 8)

/-- Left shift distributes over XOR. -/
theorem shiftLeft_xor_distrib (x y n : Nat) :
    (x ^^^ y) <<< n = (x <<< n) ^^^ (y <<< n) := by
  apply Nat.eq_of_testBit_eq
  intro i
  simp only [Nat.testBit_shiftLeft, Nat.testBit_xor]
  cases h : decide (i ≥ n) <;> simp

/-- XOR on `Nat` is left-commutative. -/
theorem xor_left_comm (a b c : Nat) : a ^^^ (b ^^^ c) = b ^^^ (a ^^^ c) := by
  rw [← Nat.xor_assoc, Nat.xor_comm a b, Nat.xor_assoc]

/-- The CRC shift step is GF(2)-linear. -/
theorem crc16Step_linear (x y : Nat) :
    crc16Step (x ^^^ y) = crc16Step x ^^^ crc16Step y := by
  have hT : ∀ z : Nat, z.testBit 15 = true →
      crc16Step z = ((z <<< 1) ^^^ CCITT_FALSE_POLY) &&& 0xFFFF := by
    intro z hz
    simp [crc16Step, hz]
  have hF : ∀ z : Nat, z.testBit 15 = false →
      crc16Step z = (z <<< 1) &&& 0xFFFF := by
    intro z hz
    simp [crc16Step, hz]
  cases hx : x.testBit 15 <;> cases hy : y.testBit 15
  · have hxy : (x ^^^ y).testBit 15 = false := by
      rw [Nat.testBit_xor, hx, hy]
      rfl
    rw [hF _ hxy, hF _ hx, hF _ hy, shiftLeft_xor_distrib, Nat.and_xor_distrib_right]
  · have hxy : (x ^^^ y).testBit 15 = true := by
      rw [Nat.testBit_xor, hx, hy]
      rfl
    rw [hT _ hxy, hF _ hx, hT _ hy]
    simp only [shiftLeft_xor_distrib, Nat.and_xor_distrib_right]
    simp [Nat.xor_assoc, Nat.xor_comm, xor_left_comm]
  · have hxy : (x ^^^ y).testBit 15 = true := by
      rw [Nat.testBit_xor, hx, hy]
      rfl
    rw [hT _ hxy, hT _ hx, hF _ hy]
    simp only [shiftLeft_xor_distrib, Nat.and_xor_distrib_right]
    simp [Nat.xor_assoc, Nat.xor_comm, xor_left_comm]
  · have hxy : (x ^^^ y).testBit 15 = false := by
      rw [Nat.testBit_xor, hx, hy]
      rfl
    rw [hF _ hxy, hT _ hx, hT _ hy]
    simp only [shiftLeft_xor_distrib, Nat.and_xor_distrib_right]
    simp [Nat.xor_assoc, Nat.xor_comm, xor_left_comm, Nat.xor_self, Nat.xor_zero]
    rw [← Nat.xor_assoc, Nat.xor_self, Nat.zero_xor]

/-- Folding one byte into the CRC state is GF(2)-linear in state and
byte jointly. -/
theorem crc16Byte_linear (s1 s2 b1 b2 : Nat) :
    crc16Byte (s1 ^^^ s2) (b1 ^^^ b2) = crc16Byte s1 b1 ^^^ crc16Byte s2 b2 := by
  unfold crc16Byte
  have harg : (s1 ^^^ s2) ^^^ ((b1 ^^^ b2) <<< 8) =
      (s1 ^^^ b1 <<< 8) ^^^ (s2 ^^^ b2 <<< 8) := by
    rw [shiftLeft_xor_distrib]
    simp [Nat.xor_assoc, Nat.xor_comm, xor_left_comm]
  rw [harg]
  simp only [crc16Step_linear]

/-- The CRC fold is GF(2)-affine: XORing two equal-length messages
byte-wise XORs the resulting states. -/
theorem crc16_fold_linear (m1 m2 : List Nat) (s1 s2 : Nat)
    (h : m1.length = m2.length) :
    List.foldl crc16Byte (s1 ^^^ s2) (List.zipWith (· ^^^ ·) m1 m2) =
      List.foldl crc16Byte s1 m1 ^^^ List.foldl crc16Byte s2 m2 := by
  induction m1 generalizing m2 s1 s2 with
  | nil =>
    have : m2 = [] := List.eq_nil_of_length_eq_zero h.symm
    simp [this]
  | cons a t ih =>
    cases m2 with
    | nil => simp at h
    | cons b t2 =>
      simp only [List.zipWith_cons_cons, List.foldl_cons]
      have h' : t.length = t2.length := by simpa using h
      have hih := ih t2 (crc16Byte s1 a) (crc16Byte s2 b) h'
      rw [← crc16Byte_linear] at hih
      exact hih

/-- The CRC state stays within 16 bits. -/
theorem crc16Step_lt (s : Nat) : crc16Step s < 65536 := by
  unfold crc16Step
  split <;> exact Nat.lt_succ_of_le Nat.and_le_right

/-- A nonzero 16-bit state stays nonzero through one shift step. -/
theorem crc16Step_ne_zero (s : Nat) (hs : s < 65536) (h0 : s ≠ 0) :
    crc16Step s ≠ 0 := by
  unfold crc16Step
  cases h : s.testBit 15 with
  | true =>
    rw [if_pos rfl]
    intro hc
    have hbit : (((s <<< 1) ^^^ CCITT_FALSE_POLY) &&& 0xFFFF).testBit 0 = true := by
      simp only [Nat.testBit_and, Nat.testBit_xor, Nat.testBit_shiftLeft]
      norm_num [CCITT_FALSE_POLY]
    rw [hc] at hbit
    exact absurd hbit (by decide)
  | false =>
    rw [if_neg (by decide)]
    have hlt : s < 32768 := by
      by_contra hge
      push_neg at hge
      have : s.testBit 15 = true := by
        simp only [Nat.testBit_to_div_mod, decide_eq_true_eq]
        have e : (2 : Nat) ^ 15 = 32768 := by norm_num
        rw [e]
        omega
      rw [this] at h
      exact Bool.noConfusion h
    have heq : (s <<< 1) &&& 65535 = s <<< 1 := by
      have e : (65535 : Nat) = 2 ^ 16 - 1 := by norm_num
      rw [e, Nat.and_pow_two_sub_one_eq_mod]
      exact Nat.mod_eq_of_lt (by rw [Nat.shiftLeft_eq]; omega)
    rw [heq, Nat.shiftLeft_eq]
    intro hc
    exact h0 (by omega)

/-- Eight shift steps keep a nonzero 16-bit state nonzero and 16-bit. -/
theorem crc16Steps8_pres (s : Nat) (hs : s < 65536) (h0 : s ≠ 0) :
    crc16Step (crc16Step (crc16Step (crc16Step
      (crc16Step (crc16Step (crc16Step (crc16Step s))))))) < 65536 ∧
    crc16Step (crc16Step (crc16Step (crc16Step
      (crc16Step (crc16Step (crc16Step (crc16Step s))))))) ≠ 0 := by
  have step : ∀ t : Nat, t < 65536 → t ≠ 0 → crc16Step t < 65536 ∧ crc16Step t ≠ 0 :=
    fun t ht h1 => ⟨crc16Step_lt t, crc16Step_ne_zero t ht h1⟩
  have h1 := step s hs h0
  have h2 := step _ h1.1 h1.2
  have h3 := step _ h2.1 h2.2
  have h4 := step _ h3.1 h3.2
  have h5 := step _ h4.1 h4.2
  have h6 := step _ h5.1 h5.2
  have h7 := step _ h6.1 h6.2
  exact step _ h7.1 h7.2

/-- A nonzero 16-bit state stays nonzero and 16-bit through one byte of
zeros. -/
theorem crc16Byte_zero_pres (s : Nat) (hs : s < 65536) (h0 : s ≠ 0) :
    crc16Byte s 0 ≠ 0 ∧ crc16Byte s 0 < 65536 := by
  unfold crc16Byte
  rw [Nat.zero_shiftLeft, Nat.xor_zero]
  exact ⟨(crc16Steps8_pres s hs h0).2, (crc16Steps8_pres s hs h0).1⟩

/-- Zero state and zero bytes stay zero. -/
theorem crc16Byte_zero : crc16Byte 0 0 = 0 := by decide

/-- Folding a run of zero bytes from the zero state stays zero. -/
theorem crc16_foldl_zero (k : Nat) :
    List.foldl crc16Byte 0 (List.replicate k 0) = 0 := by
  induction k with
  | zero => rfl
  | succ n ih => simpa [List.replicate_succ, crc16Byte_zero] using ih

/-- Folding a run of zero bytes keeps a nonzero 16-bit state nonzero. -/
theorem crc16_foldl_zero_pres (k : Nat) (s : Nat) (hs : s < 65536) (h0 : s ≠ 0) :
    List.foldl crc16Byte s (List.replicate k 0) ≠ 0 := by
  induction k generalizing s with
  | zero => simpa using h0
  | succ n ih =>
    have h := crc16Byte_zero_pres s hs h0
    simpa [List.replicate_succ] using ih (crc16Byte s 0) h.2 h.1

/-- The syndrome of flipping bit `j` of byte `i` of an `n`-byte message
never vanishes: the zero-initialized CRC of the single-bit-error message
is nonzero. -/
theorem crc16_syndrome_ne_zero (i j n : Nat) (hj : j < 8) :
    List.foldl crc16Byte 0
      (List.replicate i 0 ++ (1 <<< j) :: List.replicate (n - i - 1) 0) ≠ 0 := by
  rw [List.foldl_append, crc16_foldl_zero, List.foldl_cons]
  have hval : (0 : Nat) ^^^ ((1 <<< j) <<< 8) = 2 ^ (j + 8) := by
    rw [Nat.zero_xor, Nat.shiftLeft_eq, Nat.shiftLeft_eq, one_mul, ← pow_add]
  have hlt : (2 : Nat) ^ (j + 8) < 65536 := by
    have h15 : (2 : Nat) ^ (j + 8) ≤ 2 ^ 15 := Nat.pow_le_pow_right (by norm_num) (by omega)
    have : (2 : Nat) ^ 15 = 32768 := by norm_num
    omega
  have hne : (2 : Nat) ^ (j + 8) ≠ 0 := (Nat.two_pow_pos (j + 8)).ne'
  have hbyte : crc16Byte 0 (1 <<< j) ≠ 0 ∧ crc16Byte 0 (1 <<< j) < 65536 := by
    unfold crc16Byte
    rw [hval]
    exact ⟨(crc16Steps8_pres _ hlt hne).2, (crc16Steps8_pres _ hlt hne).1⟩
  exact crc16_foldl_zero_pres _ _ hbyte.2 hbyte.1

/-- The CRC-16 value fits in 16 bits. -/
theorem crc16_fold_lt (l : List Nat) (s : Nat) (hs : s < 65536) :
    List.foldl crc16Byte s l < 65536 := by
  induction l generalizing s with
  | nil => simpa using hs
  | cons a t ih =>
    rw [List.foldl_cons]
    refine ih _ ?_
    unfold crc16Byte
    exact crc16Step_lt _

/-- Recombining a 16-bit value from its little-endian byte split. -/
theorem lor_byte_split (c : Nat) : (c % 256) ||| ((c / 256) <<< 8) = c := by
  apply Nat.eq_of_testBit_eq
  intro i
  have h256 : (256 : Nat) = 2 ^ 8 := by norm_num
  rw [Nat.testBit_or, Nat.testBit_shiftLeft, h256, Nat.testBit_mod_two_pow,
    ← Nat.shiftRight_eq_div_pow, Nat.testBit_shiftRight]
  by_cases hi : i < 8
  · have hge : ¬ (i ≥ 8) := by omega
    simp [hi, hge]
  · have hge : i ≥ 8 := by omega
    have h8 : 8 + (i - 8) = i := by omega
    simp [hi, hge, h8]

/-- XOR with the all-zero list of matching length is the identity. -/
theorem zipWith_xor_zero (t : List Nat) :
    List.zipWith (· ^^^ ·) t (List.replicate t.length 0) = t := by
  induction t with
  | nil => rfl
  | cons a s ih =>
    simp only [List.length_cons, List.replicate_succ, List.zipWith_cons_cons,
      Nat.xor_zero]
    rw [ih]

/-- XOR with the single-bit-error message flips exactly one byte. -/
theorem zipWith_xor_err (p : List Nat) (i v : Nat) (hi : i < p.length) :
    List.zipWith (· ^^^ ·) p
        (List.replicate i 0 ++ v :: List.replicate (p.length - i - 1) 0) =
      p.set i (p.getD i 0 ^^^ v) := by
  induction p generalizing i with
  | nil => simp at hi
  | cons a t ih =>
    cases i with
    | zero =>
      simp only [List.replicate, List.nil_append, List.zipWith_cons_cons,
        List.length_cons, List.getD_cons_zero, List.set_cons_zero]
      have hlen : t.length + 1 - 0 - 1 = t.length := by omega
      rw [hlen, zipWith_xor_zero]
    | succ n =>
      have hn : n < t.length := by simpa using hi
      simp only [List.replicate_succ, List.cons_append, List.zipWith_cons_cons,
        Nat.xor_zero, List.getD_cons_succ, List.set_cons_succ, List.length_cons]
      have hlen : t.length + 1 - (n + 1) - 1 = t.length - n - 1 := by omega
      rw [hlen, ih n hn]

/-- Flipping any single bit of the message changes its CRC-16. -/
theorem crc16_bitflip_ne (p : List Nat) (i j : Nat) (hi : i < p.length) (hj : j < 8) :
    crc16 (p.set i (p.getD i 0 ^^^ (1 <<< j))) ≠ crc16 p := by
  rw [← zipWith_xor_err p i (1 <<< j) hi]
  have hlen : p.length =
      (List.replicate i 0 ++ (1 <<< j) :: List.replicate (p.length - i - 1) 0).length := by
    simp only [List.length_append, List.length_cons, List.length_replicate]
    omega
  have hlin := crc16_fold_linear p
    (List.replicate i 0 ++ (1 <<< j) :: List.replicate (p.length - i - 1) 0)
    CCITT_FALSE_INIT 0 hlen
  rw [Nat.xor_zero] at hlin
  show List.foldl crc16Byte CCITT_FALSE_INIT _ ≠ List.foldl crc16Byte CCITT_FALSE_INIT p
  rw [hlin]
  intro heq
  apply crc16_syndrome_ne_zero i j p.length hj
  have hback := congrArg (fun z => List.foldl crc16Byte CCITT_FALSE_INIT p ^^^ z) heq
  simp only at hback
  rw [← Nat.xor_assoc, Nat.xor_self, Nat.zero_xor] at hback
  exact hback

/-- C5: `crcCheck` returns true iff the CRC-16 (CCITT-FALSE) of the
subframe's `len` payload bytes equals the two trailer bytes read
little-endian; a subframe whose trailer is the little-endian split of
that CRC passes, and flipping any single payload bit while keeping the
original trailer fails. -/
theorem c5_crcCheck (sf : RS41Subframe) (i j : Nat)
    (hlen : sf.len + 2 ≤ sf.data.length) (hi : i < sf.len) (hj : j < 8) :
    (crcCheck sf = true ↔
      crc16 (sf.data.take sf.len) =
        sf.data.getD sf.len 0 ||| (sf.data.getD (sf.len + 1) 0) <<< 8) ∧
    (sf.data.getD sf.len 0 = crc16 (sf.data.take sf.len) % 256 →
      sf.data.getD (sf.len + 1) 0 = crc16 (sf.data.take sf.len) / 256 →
      crcCheck sf = true) ∧
    (crcCheck sf = true →
      crcCheck { sf with data := sf.data.set i (sf.data.getD i 0 ^^^ (1 <<< j)) } = false) := by
  refine ⟨by rw [crcCheck, beq_iff_eq], ?_, ?_⟩
  · intro h1 h2
    rw [crcCheck, beq_iff_eq, h1, h2, lor_byte_split]
  · intro htrue
    rw [crcCheck, beq_iff_eq] at htrue
    rw [crcCheck, beq_eq_false_iff_ne]
    have hne1 : ¬ i = sf.len := by omega
    have hne2 : ¬ i = sf.len + 1 := by omega
    have hget1 : (sf.data.set i (sf.data.getD i 0 ^^^ (1 <<< j))).getD sf.len 0 =
        sf.data.getD sf.len 0 := by
      simp only [List.getD_eq_getElem?_getD, List.getElem?_set]
      simp [hne1]
    have hget2 : (sf.data.set i (sf.data.getD i 0 ^^^ (1 <<< j))).getD (sf.len + 1) 0 =
        sf.data.getD (sf.len + 1) 0 := by
      simp only [List.getD_eq_getElem?_getD, List.getElem?_set]
      simp [hne2]
    simp only [hget1, hget2]
    have htk : sf.data.getD i 0 = (sf.data.take sf.len).getD i 0 := by
      simp only [List.getD_eq_getElem?_getD, List.getElem?_take]
      simp [hi]
    have hset : (sf.data.set i (sf.data.getD i 0 ^^^ (1 <<< j))).take sf.len =
        (sf.data.take sf.len).set i ((sf.data.take sf.len).getD i 0 ^^^ (1 <<< j)) := by
      rw [List.set_take, htk]
    rw [hset, ← htrue]
    have hilen : i < (sf.data.take sf.len).length := by
      rw [List.length_take]
      omega
    exact crc16_bitflip_ne (sf.data.take sf.len) i j hilen hj

/-- Witness for C5 at the subframe `type 0x79, len 1, payload [0x01]`
with its correctly computed CCITT-FALSE trailer `0xF1D1`. -/
theorem c5_crcCheck_witness :
    crcCheck { sftype := 0x79, len := 1,
               data := ([0x01, 0xD1, 0xF1] : List Nat).set 0
                 (([0x01, 0xD1, 0xF1] : List Nat).getD 0 0 ^^^ (1 <<< 0)) } = false :=
  (c5_crcCheck ⟨0x79, 1, [0x01, 0xD1, 0xF1]⟩ 0 0
    (by decide) (by decide) (by decide)).2.2 (by decide)

/-! ## Calibration assembler (`RS41Decoder::updateCalibData`, claims C2, C10)

The assembler state tracked here is the fragment-completion bitmap
`m_calibDataBitmap` and the flag `m_calibrated`.  The raw table bytes
`m_calibData` are not tracked: the completion logic never reads them, and
the fragment copy into the table is a plain `memcpy` whose accessed byte
range is modelled separately (`calibFragOffset`) for the bounds claim. -/

/-- Bitmap + calibrated flag portion of the decoder state. -/
structure CalibState where
  bitmap : List Nat
  calibrated : Bool

/-- `RS41Decoder::init` lines 112-113: bitmap bytes all `0xFF`, then the
trailing unused bits of the last byte are cleared:
`bitmap[size-1] &= ~((1 << (7 - (RS41_CALIB_FRAGCOUNT-1)%8)) - 1)`
(the `&= ~mask` on a `uint8_t` is `&&& (0xFF ^^^ mask)`). -/
def initCalibBitmap : List Nat :=
  (List.replicate calibBitmapSize 0xFF).set (calibBitmapSize - 1)
    (0xFF &&& (0xFF ^^^ ((1 <<< (7 - (RS41_CALIB_FRAGCOUNT - 1) % 8)) - 1)))

/-- Fresh assembler state after `init` (lines 106, 112-113):
`m_calibrated = false` and the freshly initialized bitmap. -/
def initCalibState : CalibState :=
  ⟨initCalibBitmap, false⟩

/-- Index of the bitmap byte touched for fragment `frag_seq`
(line 323: `m_calibDataBitmap[status->frag_seq/8]`). -/
def calibBitmapIndex (frag_seq : Nat) : Nat :=
  frag_seq / 8

/-- Byte offset of fragment `frag_seq` in the calibration table
(line 321: `frag_offset = status->frag_seq * RS41_CALIB_FRAGSIZE`). -/
def calibFragOffset (frag_seq : Nat) : Nat :=
  frag_seq * RS41_CALIB_FRAGSIZE

/-- Both radio-controlled accesses of `updateCalibData` stay in bounds:
the 16-byte `memcpy` at `calibFragOffset` (line 322) within the 816-byte
table, and the bitmap byte access (line 323) within the 7-byte bitmap. -/
def calibAccessInBounds (frag_seq : Nat) : Prop :=
  calibFragOffset frag_seq + RS41_CALIB_FRAGSIZE ≤ RS41_CALIB_SIZE ∧
  calibBitmapIndex frag_seq < calibBitmapSize

/-- The bitmap update of line 323:
`m_calibDataBitmap[frag_seq/8] &= ~(1 << (7 - frag_seq%8))`
(again `&= ~mask` on a `uint8_t` is `&&& (0xFF ^^^ mask)`). -/
def clearFragBit (bm : List Nat) (s : Nat) : List Nat :=
  bm.set (calibBitmapIndex s)
    ((bm.getD (calibBitmapIndex s) 0) &&& (0xFF ^^^ (1 <<< (7 - s % 8))))

/-- The completeness scan of lines 326-328: all bitmap bytes are zero. -/
def bmAllZero (bm : List Nat) : Bool :=
  bm.all (· == 0)

/-- `RS41Decoder::updateCalibData` (lines 313-330) on the tracked state:
clear the fragment's bitmap bit, then set `m_calibrated` if every bitmap
byte is zero (the early `return` leaves the flag unchanged otherwise). -/
def updateCalibData (st : CalibState) (frag_seq : Nat) : CalibState :=
  let bm := clearFragBit st.bitmap frag_seq
  if bmAllZero bm then ⟨bm, true⟩ else ⟨bm, st.calibrated⟩

/-- Feeding a sequence of status-subframe fragment numbers into the
assembler. -/
def feedFrags (st : CalibState) (l : List Nat) : CalibState :=
  l.foldl updateCalibData st

/-- Bit of the completion bitmap recording fragment `s`
(bit `7 - s%8` of byte `s/8`). -/
def fragBit (bm : List Nat) (s : Nat) : Bool :=
  (bm.getD (calibBitmapIndex s) 0).testBit (7 - s % 8)

/-- Effect of the `&= ~(1 << k)` mask on a byte, bit by bit. -/
theorem and_clear_mask_testBit (b k m : Nat) (hb : b < 256) (hk : k < 8) (hm : m < 8) :
    (b &&& (0xFF ^^^ (1 <<< k))).testBit m = (b.testBit m && decide (m ≠ k)) := by
  revert hm
  revert m
  revert hk
  revert k
  revert hb
  revert b
  decide

/-- A byte is zero iff its eight bits all are. -/
theorem byte_zero_iff_bits (b : Nat) (hb : b < 256) :
    b = 0 ↔ ∀ m, m < 8 → b.testBit m = false := by
  constructor
  · intro h m _
    subst h
    exact Nat.zero_testBit m
  · intro h
    apply Nat.eq_of_testBit_eq
    intro i
    rw [Nat.zero_testBit]
    by_cases hi : i < 8
    · exact h i hi
    · have h2 : (256 : Nat) ≤ 2 ^ i := by
        have e : (256 : Nat) = 2 ^ 8 := by norm_num
        rw [e]
        exact Nat.pow_le_pow_right (by norm_num) (by omega)
      exact Nat.testBit_lt_two_pow (lt_of_lt_of_le hb h2)

/-- `bmAllZero` in terms of `getD`. -/
theorem bmAllZero_iff_getD (bm : List Nat) :
    bmAllZero bm = true ↔ ∀ idx, idx < bm.length → bm.getD idx 0 = 0 := by
  induction bm with
  | nil => simp [bmAllZero]
  | cons a t ih =>
    simp only [bmAllZero, List.all_cons, Bool.and_eq_true, beq_iff_eq] at *
    constructor
    · rintro ⟨ha, ht⟩ idx hidx
      cases idx with
      | zero => simpa using ha
      | succ n =>
        rw [List.getD_cons_succ]
        exact ih.mp ht n (by simpa using hidx)
    · intro h
      refine ⟨by simpa using h 0 (by simp), ih.mpr ?_⟩
      intro n hn
      have := h (n + 1) (by simpa using hn)
      rwa [List.getD_cons_succ] at this

/-- Invariant carried through the calibration fold: bitmap shape, byte
range, per-fragment bit contents, and the flag/bitmap equivalence. -/
def CalibInv (st : CalibState) (fed : List Nat) : Prop :=
  st.bitmap.length = calibBitmapSize ∧
  (∀ idx, idx < calibBitmapSize → st.bitmap.getD idx 0 < 256) ∧
  (∀ s, s < 56 → fragBit st.bitmap s =
    decide (s < RS41_CALIB_FRAGCOUNT ∧ s ∉ fed)) ∧
  st.calibrated = bmAllZero st.bitmap

/-- The fresh state satisfies the invariant with nothing fed. -/
theorem calibInv_init : CalibInv initCalibState [] := by
  refine ⟨by decide, by decide, ?_, by decide⟩
  intro s hs
  simp only [List.not_mem_nil, and_true]
  revert hs
  revert s
  decide

/-- Both branches of `updateCalibData` install the cleared bitmap. -/
theorem updateCalibData_bitmap (st : CalibState) (x : Nat) :
    (updateCalibData st x).bitmap = clearFragBit st.bitmap x := by
  simp only [updateCalibData]
  split <;> rfl

/-- The flag after `updateCalibData`: set when the new bitmap is all
zero, untouched otherwise. -/
theorem updateCalibData_calibrated (st : CalibState) (x : Nat) :
    (updateCalibData st x).calibrated =
      (if bmAllZero (clearFragBit st.bitmap x) then true else st.calibrated) := by
  simp only [updateCalibData]
  split <;> rfl

/-- One `updateCalibData` step preserves the invariant. -/
theorem calibInv_step (st : CalibState) (fed : List Nat) (x : Nat)
    (hinv : CalibInv st fed) (hx : x < RS41_CALIB_FRAGCOUNT) :
    CalibInv (updateCalibData st x) (fed ++ [x]) := by
  obtain ⟨hlen, hbyte, hbits, hflag⟩ := hinv
  have hx51 : x < 51 := hx
  have hxidx : calibBitmapIndex x < calibBitmapSize := by
    simp only [calibBitmapIndex, calibBitmapSize]
    omega
  have hbm_len : (clearFragBit st.bitmap x).length = calibBitmapSize := by
    rw [clearFragBit, List.length_set, hlen]
  have hbm_getD : ∀ idx, idx < calibBitmapSize →
      (clearFragBit st.bitmap x).getD idx 0 =
        (if calibBitmapIndex x = idx then
          (st.bitmap.getD (calibBitmapIndex x) 0) &&& (0xFF ^^^ (1 <<< (7 - x % 8)))
        else st.bitmap.getD idx 0) := by
    intro idx hidx
    rw [clearFragBit]
    simp only [List.getD_eq_getElem?_getD, List.getElem?_set]
    by_cases he : calibBitmapIndex x = idx
    · have hlt : calibBitmapIndex x < st.bitmap.length := by omega
      simp [he, he ▸ hlt]
    · simp [he]
  have hbm_byte : ∀ idx, idx < calibBitmapSize →
      (clearFragBit st.bitmap x).getD idx 0 < 256 := by
    intro idx hidx
    rw [hbm_getD idx hidx]
    by_cases he : calibBitmapIndex x = idx
    · rw [if_pos he]
      exact lt_of_le_of_lt Nat.and_le_left (he ▸ hbyte idx hidx)
    · rw [if_neg he]
      exact hbyte idx hidx
  have hbm_bits : ∀ s, s < 56 → fragBit (clearFragBit st.bitmap x) s =
      decide (s < RS41_CALIB_FRAGCOUNT ∧ s ∉ fed ++ [x]) := by
    intro s hs
    have hsidx : calibBitmapIndex s < calibBitmapSize := by
      simp only [calibBitmapIndex, calibBitmapSize]
      omega
    rw [fragBit, hbm_getD _ hsidx]
    have hb := hbits s hs
    rw [fragBit] at hb
    by_cases he : calibBitmapIndex x = calibBitmapIndex s
    · rw [if_pos he]
      rw [and_clear_mask_testBit _ _ _ (he ▸ hbyte _ hsidx) (by omega) (by omega),
        he, hb]
      by_cases hsx : s = x
      · subst hsx
        simp
      · have hdiv : s / 8 = x / 8 := by
          simpa only [calibBitmapIndex] using he.symm
        have hmod : 7 - s % 8 ≠ 7 - x % 8 := by
          intro hmm
          exact hsx (by omega)
        simp only [ne_eq, hmod, not_false_eq_true, decide_True, Bool.and_true]
        rw [decide_eq_decide]
        have hmem : (s ∈ fed ++ [x]) ↔ (s ∈ fed) := by
          simp [hsx]
        rw [hmem]
    · rw [if_neg he, hb, decide_eq_decide]
      have hsx : ¬ s = x := fun hmm => he (by rw [hmm])
      have hmem : (s ∈ fed ++ [x]) ↔ (s ∈ fed) := by
        simp [hsx]
      rw [hmem]
  refine ⟨?_, ?_, ?_, ?_⟩
  · rw [updateCalibData_bitmap]
    exact hbm_len
  · rw [updateCalibData_bitmap]
    exact hbm_byte
  · rw [updateCalibData_bitmap]
    exact hbm_bits
  · rw [updateCalibData_calibrated, updateCalibData_bitmap]
    by_cases hz : bmAllZero (clearFragBit st.bitmap x) = true
    · rw [if_pos hz, hz]
    · rw [if_neg hz, hflag]
      have hnew : bmAllZero st.bitmap = true → bmAllZero (clearFragBit st.bitmap x) = true := by
        intro hold
        rw [bmAllZero_iff_getD] at hold ⊢
        intro idx hidx
        have hidx' : idx < calibBitmapSize := hbm_len ▸ hidx
        rw [hbm_getD idx hidx']
        by_cases he : calibBitmapIndex x = idx
        · rw [if_pos he, hold _ (by omega), Nat.zero_and]
        · rw [if_neg he]
          exact hold _ (by omega)
      cases hold : bmAllZero st.bitmap
      · cases hnewv : bmAllZero (clearFragBit st.bitmap x)
        · rfl
        · exact absurd hnewv hz
      · exact absurd (hnew hold) hz

/-- Feeding any run of valid fragments preserves the invariant. -/
theorem calibInv_fold (l : List Nat) (st : CalibState) (fed : List Nat)
    (hinv : CalibInv st fed) (hl : ∀ x ∈ l, x < RS41_CALIB_FRAGCOUNT) :
    CalibInv (feedFrags st l) (fed ++ l) := by
  induction l generalizing st fed with
  | nil => simpa [feedFrags] using hinv
  | cons a t ih =>
    have h1 := calibInv_step st fed a hinv (hl a (by simp))
    have h2 := ih (updateCalibData st a) (fed ++ [a]) h1
      (fun x hxm => hl x (by simp [hxm]))
    simpa [feedFrags, List.append_assoc] using h2

/-- After feeding any valid fragment list from the fresh state, the flag
equals the all-zero bitmap test, and it is set exactly when every
fragment number below the fragment count has been fed. -/
theorem calib_complete_iff (l : List Nat) (hl : ∀ x ∈ l, x < RS41_CALIB_FRAGCOUNT) :
    ((feedFrags initCalibState l).calibrated = true ↔
      ∀ s, s < RS41_CALIB_FRAGCOUNT → s ∈ l) ∧
    (feedFrags initCalibState l).calibrated =
      bmAllZero (feedFrags initCalibState l).bitmap := by
  have hinv := calibInv_fold l initCalibState [] calibInv_init hl
  rw [List.nil_append] at hinv
  obtain ⟨hlen, hbyte, hbits, hflag⟩ := hinv
  refine ⟨?_, hflag⟩
  rw [hflag, bmAllZero_iff_getD]
  constructor
  · intro hall s hs
    have hs51 : s < 51 := hs
    have hsidx : calibBitmapIndex s < calibBitmapSize := by
      simp only [calibBitmapIndex, calibBitmapSize]
      omega
    have hzero : (feedFrags initCalibState l).bitmap.getD (calibBitmapIndex s) 0 = 0 :=
      hall _ (by omega)
    have hfb : fragBit (feedFrags initCalibState l).bitmap s = false := by
      rw [fragBit, hzero]
      exact Nat.zero_testBit _
    rw [hbits s (by omega)] at hfb
    simp only [decide_eq_false_iff_not, not_and, not_not] at hfb
    exact hfb hs
  · intro hmem idx hidx
    have hidx' : idx < calibBitmapSize := hlen ▸ hidx
    rw [byte_zero_iff_bits _ (hbyte idx hidx')]
    intro m hm
    have hs56 : 8 * idx + (7 - m) < 56 := by
      have : idx < 7 := hidx'
      omega
    have hb := hbits (8 * idx + (7 - m)) hs56
    have hidxeq : calibBitmapIndex (8 * idx + (7 - m)) = idx := by
      simp only [calibBitmapIndex]
      omega
    have hmodeq : 7 - (8 * idx + (7 - m)) % 8 = m := by
      omega
    rw [fragBit, hidxeq, hmodeq] at hb
    rw [hb]
    simp only [decide_eq_false_iff_not, not_and, not_not]
    intro hcon
    exact hmem _ hcon

/-- For a duplicate-free list of valid fragment numbers, covering every
fragment is the same as having full length. -/
theorem calib_full_iff_length (l : List Nat) (hnd : l.Nodup)
    (hl : ∀ x ∈ l, x < RS41_CALIB_FRAGCOUNT) :
    (∀ s, s < RS41_CALIB_FRAGCOUNT → s ∈ l) ↔ l.length = RS41_CALIB_FRAGCOUNT := by
  have hsub : l.toFinset ⊆ Finset.range 51 := by
    intro a ha
    rw [List.mem_toFinset] at ha
    exact Finset.mem_range.mpr (hl a ha)
  have hcard : l.toFinset.card = l.length := List.toFinset_card_of_nodup hnd
  constructor
  · intro hfull
    have hsup : Finset.range 51 ⊆ l.toFinset := by
      intro a ha
      rw [List.mem_toFinset]
      exact hfull a (Finset.mem_range.mp ha)
    have := Finset.Subset.antisymm hsub hsup
    have hc : l.toFinset.card = 51 := by
      rw [this, Finset.card_range]
    rw [← hcard, hc]
    rfl
  · intro hlength
    have hc : (Finset.range 51).card ≤ l.toFinset.card := by
      rw [hcard, hlength, Finset.card_range]
      exact le_refl _
    have := Finset.eq_of_subset_of_card_le hsub hc
    intro s hs
    have : s ∈ l.toFinset := by
      rw [this]
      exact Finset.mem_range.mpr hs
    exact List.mem_toFinset.mp this

set_option maxHeartbeats 1000000

/-- C2: from the freshly initialized completion bitmap (all bits set,
trailing unused bits pre-cleared), feeding all `RS41_CALIB_FRAGCOUNT`
distinct fragments in any order makes the calibrated flag true, exactly
once, immediately after the last missing fragment and not before; any
strict subset leaves it false; and after every step the flag equals the
all-bitmap-bits-zero test. -/
theorem c2_calibration_assembler (l : List Nat) (hnd : l.Nodup)
    (hl : ∀ x ∈ l, x < RS41_CALIB_FRAGCOUNT) :
    ((feedFrags initCalibState l).calibrated = true ↔
      l.length = RS41_CALIB_FRAGCOUNT) ∧
    (∀ p q, l = p ++ q → q ≠ [] →
      (feedFrags initCalibState p).calibrated = false) ∧
    (∀ p q, l = p ++ q →
      (feedFrags initCalibState p).calibrated =
        bmAllZero (feedFrags initCalibState p).bitmap) := by
  have hfront : ∀ p q, l = p ++ q → (∀ x ∈ p, x < RS41_CALIB_FRAGCOUNT) := by
    intro p q heq x hx
    exact hl x (by rw [heq]; exact List.mem_append_left q hx)
  refine ⟨(calib_complete_iff l hl).1.trans (calib_full_iff_length l hnd hl), ?_, ?_⟩
  · intro p q heq hq
    have hpl := hfront p q heq
    have hpnd : p.Nodup := List.Nodup.of_append_left (heq ▸ hnd)
    have hiff := (calib_complete_iff p hpl).1.trans (calib_full_iff_length p hpnd hpl)
    have hlbound : l.length ≤ 51 := by
      have hsub : l.toFinset ⊆ Finset.range 51 := by
        intro a ha
        rw [List.mem_toFinset] at ha
        exact Finset.mem_range.mpr (hl a ha)
      have := Finset.card_le_card hsub
      rw [List.toFinset_card_of_nodup hnd, Finset.card_range] at this
      exact this
    have hqpos : 0 < q.length := List.length_pos.mpr hq
    have hplen : p.length < 51 := by
      have : l.length = p.length + q.length := by
        rw [heq, List.length_append]
      omega
    cases hcal : (feedFrags initCalibState p).calibrated
    · rfl
    · have := hiff.mp hcal
      rw [this] at hplen
      exact absurd hplen (by decide)
  · intro p q heq
    exact (calib_complete_iff p (hfront p q heq)).2

/-- Witness for C2: feeding the fragments `0..50` in order sets the
calibrated flag. -/
theorem c2_calibration_assembler_witness :
    (feedFrags initCalibState (List.range RS41_CALIB_FRAGCOUNT)).calibrated = true :=
  ((c2_calibration_assembler (List.range RS41_CALIB_FRAGCOUNT)
      (List.nodup_range _)
      (fun x hx => List.mem_range.mp hx)).1).mpr
    (by simp)

/-- C10: the fragment sequence number taken from the received radio data
is used unchecked; both decoder buffers are overrun for out-of-range
values.  `frag_seq = 51` already writes the 16-byte fragment at table
offset 816 = `RS41_CALIB_SIZE` (one fragment past the end), and
`frag_seq = 255` indexes bitmap byte 31 of 7; the accesses are in bounds
exactly for `frag_seq < RS41_CALIB_FRAGCOUNT`. -/
theorem c10_updateCalibData_buffer_overrun :
    ¬ calibAccessInBounds 51 ∧
    calibFragOffset 51 = RS41_CALIB_SIZE ∧
    calibBitmapIndex 255 = 31 ∧ ¬ calibBitmapIndex 255 < calibBitmapSize ∧
    (∀ s : Nat, calibAccessInBounds s ↔ s < RS41_CALIB_FRAGCOUNT) := by
  refine ⟨?_, by decide, by decide, by decide, ?_⟩
  · simp only [calibAccessInBounds, calibFragOffset, calibBitmapIndex,
      RS41_CALIB_FRAGSIZE, RS41_CALIB_SIZE, calibBitmapSize, RS41_CALIB_FRAGCOUNT]
    omega
  · intro s
    simp only [calibAccessInBounds, calibFragOffset, calibBitmapIndex,
      RS41_CALIB_FRAGSIZE, RS41_CALIB_SIZE, calibBitmapSize, RS41_CALIB_FRAGCOUNT]
    omega

/-! ## Subframe parser (`RS41Decoder::run` lines 158-172, claim C1)

The walk over the corrected frame payload.  The per-subframe effect on
`SondeData` (`updateSondeData`, line 171) is abstracted as an arbitrary
update function `apply` of the subframe start offset; the byte-level walk
and its stopping/skipping behavior are the subject of the claim. -/

/-- The declared length byte of the subframe starting at `off`
(`subframe->len`, the byte after the 1-byte type tag). -/
def subframeLenAt (d : List Nat) (off : Nat) : Nat :=
  d.getD (off + 1) 0

/-- Line 162: `offset += subframe->len + 4` (type + length + payload +
2-byte CRC). -/
def nextOff (d : List Nat) (off : Nat) : Nat :=
  off + subframeLenAt d off + 4

/-- The subframe record starting at byte offset `off` of the payload
(line 161: `subframe = (RS41Subframe*)&frame->data[offset]`). -/
def subframeAt (d : List Nat) (off : Nat) : RS41Subframe :=
  ⟨d.getD off 0, subframeLenAt d off, d.drop (off + 2)⟩

/-- The CRC test of line 168 applied to the subframe at `off`. -/
def crcOkAt (d : List Nat) (off : Nat) : Bool :=
  crcCheck (subframeAt d off)

/-- Line 158: usable payload bound, `RS41_DATA_LEN` plus the extension
region exactly when the extended-data flag is set. -/
def bytesLeftFor (extended : Bool) : Nat :=
  RS41_DATA_LEN + (if extended then RS41_XDATA_LEN else 0)

/-- The parser loop of lines 160-172, collecting the start offsets of
the subframes that are applied to `SondeData`: stop as soon as a
subframe's end offset exceeds the bound (line 165), skip subframes whose
CRC fails (line 168), apply the rest. -/
def parseApplied (d : List Nat) (bytesLeft off : Nat) : List Nat :=
  if h : off < bytesLeft then
    if nextOff d off > bytesLeft then []
    else if crcOkAt d off then off :: parseApplied d bytesLeft (nextOff d off)
    else parseApplied d bytesLeft (nextOff d off)
  else []
termination_by bytesLeft - off
decreasing_by
  all_goals exact Nat.sub_lt_sub_left h (by simp only [nextOff]; omega)

/-- The same loop with its effect on the cumulative record: `apply` is
the dispatch of line 171 on the subframe starting at the given offset. -/
def parseRun {σ : Type} (apply : σ → Nat → σ) (d : List Nat)
    (bytesLeft : Nat) (st : σ) (off : Nat) : σ :=
  if h : off < bytesLeft then
    if nextOff d off > bytesLeft then st
    else if crcOkAt d off then
      parseRun apply d bytesLeft (apply st off) (nextOff d off)
    else parseRun apply d bytesLeft st (nextOff d off)
  else st
termination_by bytesLeft - off
decreasing_by
  all_goals exact Nat.sub_lt_sub_left h (by simp only [nextOff]; omega)

/-- The sequence of subframe boundaries the loop visits: offset 0, then
each boundary advanced by that subframe's `len + 4`. -/
def boundary (d : List Nat) : Nat → Nat
  | 0 => 0
  | k + 1 => nextOff d (boundary d k)

/-- Boundaries grow at least linearly. -/
theorem boundary_ge (d : List Nat) (k : Nat) : k ≤ boundary d k := by
  induction k with
  | zero => exact Nat.zero_le _
  | succ n ih =>
    have : nextOff d (boundary d n) ≥ boundary d n + 4 := by
      simp only [nextOff]
      omega
    simpa only [boundary] using by omega

/-- The loop terminates: some boundary violates the continue condition. -/
theorem stop_exists (d : List Nat) (bytesLeft : Nat) :
    ∃ k, ¬(boundary d k < bytesLeft ∧ nextOff d (boundary d k) ≤ bytesLeft) := by
  refine ⟨bytesLeft, fun hcon => ?_⟩
  exact absurd hcon.1 (not_lt.mpr (boundary_ge d bytesLeft))

/-- Index of the first boundary at which the parser stops (either the
offset reached the bound, or the subframe's end would exceed it). -/
def stopIdx (d : List Nat) (bytesLeft : Nat) : Nat :=
  Nat.find (stop_exists d bytesLeft)

/-- The collected subframes are exactly the CRC-valid ones among the
boundaries visited before the stop index. -/
theorem parseApplied_eq (d : List Nat) (bL k : Nat) (hk : k ≤ stopIdx d bL) :
    parseApplied d bL (boundary d k) =
      ((List.range' k (stopIdx d bL - k)).map (boundary d)).filter
        (fun o => crcOkAt d o) := by
  rcases Nat.eq_or_lt_of_le hk with heq | hlt
  · have hstop := Nat.find_spec (stop_exists d bL)
    rw [← stopIdx] at hstop
    rw [← heq] at hstop
    rw [Nat.sub_eq_zero_of_le (le_of_eq heq.symm)]
    simp only [List.range', List.map_nil, List.filter_nil]
    rw [parseApplied]
    by_cases h1 : boundary d k < bL
    · have h2 : nextOff d (boundary d k) > bL := by
        by_contra hcon
        exact hstop ⟨h1, not_lt.mp hcon⟩
      rw [dif_pos h1, if_pos h2]
    · rw [dif_neg h1]
  · have hcont := Nat.find_min (stop_exists d bL) hlt
    rw [not_not] at hcont
    have h1 : boundary d k < bL := hcont.1
    have h2 : nextOff d (boundary d k) ≤ bL := hcont.2
    have hnext : nextOff d (boundary d k) = boundary d (k + 1) := rfl
    have hk1 : k + 1 ≤ stopIdx d bL := hlt
    have ih := parseApplied_eq d bL (k + 1) hk1
    rw [parseApplied, dif_pos h1, if_neg (not_lt.mpr h2), hnext, ih]
    have hrange : stopIdx d bL - k = (stopIdx d bL - (k + 1)) + 1 := by omega
    rw [hrange, List.range'_succ, List.map_cons]
    by_cases hc : crcOkAt d (boundary d k)
    · rw [if_pos hc, List.filter_cons_of_pos (by simpa using hc)]
    · rw [if_neg hc, List.filter_cons_of_neg (by simpa using hc)]
termination_by stopIdx d bL - k

/-- The stateful loop is the fold of the update over the collected
subframes: CRC-failed subframes leave the state untouched, and the
subframes applied before an early stop keep their effect. -/
theorem parseRun_eq_foldl {σ : Type} (apply : σ → Nat → σ) (d : List Nat)
    (bL : Nat) (st : σ) (off : Nat) :
    parseRun apply d bL st off = (parseApplied d bL off).foldl apply st := by
  rw [parseRun, parseApplied]
  by_cases h : off < bL
  · rw [dif_pos h, dif_pos h]
    by_cases h2 : nextOff d off > bL
    · rw [if_pos h2, if_pos h2]
      rfl
    · rw [if_neg h2, if_neg h2]
      by_cases hc : crcOkAt d off
      · rw [if_pos hc, if_pos hc, List.foldl_cons]
        exact parseRun_eq_foldl apply d bL (apply st off) (nextOff d off)
      · rw [if_neg hc, if_neg hc]
        exact parseRun_eq_foldl apply d bL st (nextOff d off)
  · rw [dif_neg h, dif_neg h]
    rfl
termination_by bL - off
decreasing_by
  all_goals exact Nat.sub_lt_sub_left h (by simp only [nextOff]; omega)

/-- C1: over one corrected frame with usable payload length
`RS41_DATA_LEN` (plus `RS41_XDATA_LEN` iff the extended flag is set), a
subframe is applied iff it starts at a boundary visited before the first
bound violation and its CRC validates; the first boundary whose subframe
end exceeds the bound stops the walk (everything applied before
remains), and CRC failures only skip that one subframe. -/
theorem c1_subframe_parse {σ : Type} (apply : σ → Nat → σ) (extended : Bool)
    (d : List Nat) (st : σ) :
    (parseApplied d (bytesLeftFor extended) 0 =
      ((List.range' 0 (stopIdx d (bytesLeftFor extended))).map (boundary d)).filter
        (fun o => crcOkAt d o)) ∧
    (parseRun apply d (bytesLeftFor extended) st 0 =
      (parseApplied d (bytesLeftFor extended) 0).foldl apply st) ∧
    (∀ k, k < stopIdx d (bytesLeftFor extended) →
      boundary d k < bytesLeftFor extended ∧
      nextOff d (boundary d k) ≤ bytesLeftFor extended) ∧
    ¬(boundary d (stopIdx d (bytesLeftFor extended)) < bytesLeftFor extended ∧
      nextOff d (boundary d (stopIdx d (bytesLeftFor extended))) ≤
        bytesLeftFor extended) := by
  refine ⟨?_, parseRun_eq_foldl apply d _ st 0, ?_, ?_⟩
  · have h := parseApplied_eq d (bytesLeftFor extended) 0 (Nat.zero_le _)
    simpa using h
  · intro k hk
    have hcont := Nat.find_min (stop_exists d (bytesLeftFor extended)) hk
    rw [not_not] at hcont
    exact hcont
  · exact Nat.find_spec (stop_exists d (bytesLeftFor extended))

/-! ## Interleaved Reed-Solomon correction (`RS41Decoder::rsCorrect`,
claims C3, C8)

The external Reed-Solomon codec (`correct_reed_solomon_decode` from the
libcorrect dependency) is abstracted as a function `dec` from the 255
assembled codeword bytes to a success flag (the source checks for a
negative return) and the output codeword bytes that the library writes
back into `rsBlock`. -/

/-- The frame region touched by `rsCorrect`: the `extended_flag` byte
(reached as `frame->data[-1]`), the data payload, and the parity bytes
`rs_checksum`. -/
structure RSFrameState where
  flag : Nat
  data : List Nat
  cksum : List Nat

/-- The payload index used by both the de-interleave read (line 218) and
the re-interleave write (line 229):
`RS41_REEDSOLOMON_INTERLEAVING*i + block - 1`. -/
def rsDataIndex (b i : Nat) : ℤ :=
  (RS41_REEDSOLOMON_INTERLEAVING : ℤ) * (i : ℤ) + (b : ℤ) - 1

/-- Data symbols gathered per block (lines 207-212): the shortened chunk
for a normal frame (`(RS41_DATA_LEN + 1) / RS41_REEDSOLOMON_INTERLEAVING`,
with the rest of the codeword zero-padded by the `memset`), the full
message length for an extended frame. -/
def chunkLen (extended : Bool) : Nat :=
  if extended then RS41_REEDSOLOMON_K
  else (RS41_DATA_LEN + 1) / RS41_REEDSOLOMON_INTERLEAVING

/-- Reading `frame->data[z]`, where `z = -1` reaches the
`extended_flag` byte stored immediately before the payload. -/
def dataAt (st : RSFrameState) (z : ℤ) : Nat :=
  if z < 0 then st.flag else st.data.getD z.toNat 0

/-- Writing `frame->data[z]`, with the same `-1` aliasing. -/
def setDataAt (st : RSFrameState) (z : ℤ) (v : Nat) : RSFrameState :=
  if z < 0 then { st with flag := v }
  else { st with data := st.data.set z.toNat v }

/-- The codeword assembled for block `b` (lines 216-222): de-interleaved
data symbols, zero padding up to the message length, then the block's
parity symbols from `rs_checksum[i + RS41_REEDSOLOMON_T*block]`. -/
def rsBlockInput (extended : Bool) (st : RSFrameState) (b : Nat) : List Nat :=
  ((List.range (chunkLen extended)).map (fun i => dataAt st (rsDataIndex b i)) ++
    List.replicate (RS41_REEDSOLOMON_K - chunkLen extended) 0) ++
  (List.range RS41_REEDSOLOMON_T).map
    (fun i => st.cksum.getD (i + RS41_REEDSOLOMON_T * b) 0)

/-- The re-interleave write-back of lines 227-233: the (possibly
corrected) data symbols go back to the strided positions, the parity
symbols back to the checksum region. -/
def rsWriteBack (extended : Bool) (st : RSFrameState) (b : Nat)
    (out : List Nat) : RSFrameState :=
  let st1 := (List.range (chunkLen extended)).foldl
    (fun s i => setDataAt s (rsDataIndex b i) (out.getD i 0)) st
  ⟨st1.flag, st1.data,
    (List.range RS41_REEDSOLOMON_T).foldl
      (fun c i => c.set (i + RS41_REEDSOLOMON_T * b)
        (out.getD (RS41_REEDSOLOMON_K + i) 0)) st1.cksum⟩

/-- `RS41Decoder::rsCorrect` (lines 200-237): per interleaved block,
assemble the codeword, run the decoder, write the output back; `valid`
is cleared whenever a block's decode fails but every block is still
processed. -/
def rsCorrect (dec : List Nat → Bool × List Nat) (extended : Bool)
    (st : RSFrameState) : Bool × RSFrameState :=
  (List.range RS41_REEDSOLOMON_INTERLEAVING).foldl
    (fun acc b =>
      (acc.1 && (dec (rsBlockInput extended acc.2 b)).1,
       rsWriteBack extended acc.2 b (dec (rsBlockInput extended acc.2 b)).2))
    (true, st)

/-- `dataAt` is unchanged by a write at a different index (indices at or
above `-1`, the only ones `rsCorrect` produces). -/
theorem dataAt_setDataAt_ne (st : RSFrameState) (z z' : ℤ) (v : Nat)
    (hz : -1 ≤ z) (hz' : -1 ≤ z') (hne : z ≠ z') :
    dataAt (setDataAt st z v) z' = dataAt st z' := by
  rw [dataAt, setDataAt, dataAt]
  by_cases h'neg : z' < 0
  · have hz'm : z' = -1 := by omega
    have hzpos : ¬ z < 0 := by omega
    rw [if_neg hzpos]
    simp [h'neg]
  · by_cases hneg : z < 0
    · rw [if_pos hneg]
      simp [h'neg]
    · rw [if_neg hneg]
      simp only [h'neg, if_false]
      simp only [List.getD_eq_getElem?_getD, List.getElem?_set]
      have : ¬ z.toNat = z'.toNat := by omega
      simp [this]

/-- `setDataAt` never touches the checksum region. -/
theorem cksum_setDataAt (st : RSFrameState) (z : ℤ) (v : Nat) :
    (setDataAt st z v).cksum = st.cksum := by
  rw [setDataAt]
  split <;> rfl

/-- `dataAt` after the data-symbol write-back fold, away from the
written indices. -/
theorem dataAt_writefold_ne (l : List Nat) (st : RSFrameState) (b : Nat)
    (out : List Nat) (z' : ℤ) (hz' : -1 ≤ z')
    (hne : ∀ i ∈ l, rsDataIndex b i ≠ z') :
    dataAt (l.foldl (fun s i => setDataAt s (rsDataIndex b i) (out.getD i 0)) st) z' =
      dataAt st z' := by
  induction l generalizing st with
  | nil => rfl
  | cons a t ih =>
    rw [List.foldl_cons, ih _ (fun i hi => hne i (by simp [hi]))]
    exact dataAt_setDataAt_ne st _ z' _
      (by simp only [rsDataIndex, RS41_REEDSOLOMON_INTERLEAVING]; push_cast; omega) hz'
      (hne a (by simp))

/-- The checksum after the data-symbol write-back fold is unchanged. -/
theorem cksum_writefold (l : List Nat) (st : RSFrameState) (b : Nat)
    (out : List Nat) :
    (l.foldl (fun s i => setDataAt s (rsDataIndex b i) (out.getD i 0)) st).cksum =
      st.cksum := by
  induction l generalizing st with
  | nil => rfl
  | cons a t ih =>
    rw [List.foldl_cons, ih, cksum_setDataAt]

/-- `getD` after the checksum write-back fold, away from the written
indices. -/
theorem getD_cksumfold_ne (l : List Nat) (c : List Nat) (b : Nat)
    (out : List Nat) (k : Nat) (hne : ∀ i ∈ l, i + RS41_REEDSOLOMON_T * b ≠ k) :
    (l.foldl (fun cc i => cc.set (i + RS41_REEDSOLOMON_T * b)
        (out.getD (RS41_REEDSOLOMON_K + i) 0)) c).getD k 0 = c.getD k 0 := by
  induction l generalizing c with
  | nil => rfl
  | cons a t ih =>
    rw [List.foldl_cons, ih _ (fun i hi => hne i (by simp [hi]))]
    simp only [List.getD_eq_getElem?_getD, List.getElem?_set]
    have : ¬ a + RS41_REEDSOLOMON_T * b = k := hne a (by simp)
    simp [this]

/-- Reading `dataAt` ignores the checksum component. -/
theorem dataAt_mk_cksum (s : RSFrameState) (c : List Nat) (z : ℤ) :
    dataAt ⟨s.flag, s.data, c⟩ z = dataAt s z := rfl

/-- After block 0's write-back, every payload byte block 1 reads is
untouched: block 0 writes the flag byte and the odd payload positions,
block 1 reads the even ones. -/
theorem dataAt_rsWriteBack_zero (extended : Bool) (st : RSFrameState)
    (out : List Nat) (i : Nat) :
    dataAt (rsWriteBack extended st 0 out) (rsDataIndex 1 i) =
      dataAt st (rsDataIndex 1 i) := by
  simp only [rsWriteBack]
  rw [dataAt_mk_cksum]
  apply dataAt_writefold_ne
  · simp only [rsDataIndex, RS41_REEDSOLOMON_INTERLEAVING]
    push_cast
    omega
  · intro i' _
    simp only [rsDataIndex, RS41_REEDSOLOMON_INTERLEAVING]
    push_cast
    omega

/-- After block 0's write-back, the parity bytes block 1 reads
(positions 24-47) are untouched (block 0 writes positions 0-23). -/
theorem cksum_rsWriteBack_zero (extended : Bool) (st : RSFrameState)
    (out : List Nat) (k : Nat) (hk : RS41_REEDSOLOMON_T ≤ k) :
    (rsWriteBack extended st 0 out).cksum.getD k 0 = st.cksum.getD k 0 := by
  simp only [rsWriteBack]
  rw [getD_cksumfold_ne]
  · rw [cksum_writefold]
  · intro i hi
    have hilt := List.mem_range.mp hi
    simp only [RS41_REEDSOLOMON_T] at *
    omega

/-- Block 1's codeword assembled after block 0's write-back equals the
one assembled from the original frame: the two interleaved blocks read
and write disjoint frame regions. -/
theorem rsBlockInput_after_writeBack (extended : Bool) (st : RSFrameState)
    (out : List Nat) :
    rsBlockInput extended (rsWriteBack extended st 0 out) 1 =
      rsBlockInput extended st 1 := by
  have h1 : (List.range (chunkLen extended)).map
      (fun i => dataAt (rsWriteBack extended st 0 out) (rsDataIndex 1 i)) =
      (List.range (chunkLen extended)).map (fun i => dataAt st (rsDataIndex 1 i)) :=
    List.map_congr_left (fun i _ => dataAt_rsWriteBack_zero extended st out i)
  have h2 : (List.range RS41_REEDSOLOMON_T).map
      (fun i => (rsWriteBack extended st 0 out).cksum.getD
        (i + RS41_REEDSOLOMON_T * 1) 0) =
      (List.range RS41_REEDSOLOMON_T).map
        (fun i => st.cksum.getD (i + RS41_REEDSOLOMON_T * 1) 0) :=
    List.map_congr_left (fun i _ => cksum_rsWriteBack_zero extended st out
      (i + RS41_REEDSOLOMON_T * 1) (by simp only [RS41_REEDSOLOMON_T]; omega))
  rw [rsBlockInput, rsBlockInput, h1, h2]

/-- `rsCorrect` in closed form: the success flag is the conjunction of
the two blocks' decode successes, and the final frame state is block 1's
write-back after block 0's, both always performed. -/
theorem rsCorrect_eq (dec : List Nat → Bool × List Nat) (extended : Bool)
    (st : RSFrameState) :
    rsCorrect dec extended st =
      ((dec (rsBlockInput extended st 0)).1 && (dec (rsBlockInput extended st 1)).1,
       rsWriteBack extended (rsWriteBack extended st 0 (dec (rsBlockInput extended st 0)).2) 1
         (dec (rsBlockInput extended st 1)).2) := by
  have hr : List.range RS41_REEDSOLOMON_INTERLEAVING = [0, 1] := rfl
  rw [rsCorrect, hr]
  simp only [List.foldl_cons, List.foldl_nil, Bool.true_and]
  rw [rsBlockInput_after_writeBack]

/-- C8: an uncorrectable block raises no exception and stops nothing:
`rsCorrect` reports failure exactly when at least one interleaved block's
decode failed, the frame state is still both blocks' write-backs of the
decoder outputs (performed whether or not either block succeeded), and
the resulting frame bytes do not depend on the success flags at all — so
a failed block never prevents correcting the other block, and the
subsequent subframe parsing of `run` (which discards the returned flag,
line 156) proceeds on the same bytes. -/
theorem c8_rsCorrect_failure_isolation (dec dec' : List Nat → Bool × List Nat)
    (extended : Bool) (st : RSFrameState)
    (hout : ∀ l, (dec l).2 = (dec' l).2) :
    ((rsCorrect dec extended st).1 = false ↔
      ((dec (rsBlockInput extended st 0)).1 = false ∨
        (dec (rsBlockInput extended st 1)).1 = false)) ∧
    ((rsCorrect dec extended st).2 =
      rsWriteBack extended
        (rsWriteBack extended st 0 (dec (rsBlockInput extended st 0)).2) 1
        (dec (rsBlockInput extended st 1)).2) ∧
    (rsCorrect dec extended st).2 = (rsCorrect dec' extended st).2 := by
  refine ⟨?_, ?_, ?_⟩
  · rw [rsCorrect_eq]
    cases h0 : (dec (rsBlockInput extended st 0)).1 <;>
      cases h1 : (dec (rsBlockInput extended st 1)).1 <;> simp
  · rw [rsCorrect_eq]
  · rw [rsCorrect_eq, rsCorrect_eq, hout, hout]

/-- Witness for C8 with the always-failing identity decoder on an empty
frame. -/
theorem c8_rsCorrect_failure_isolation_witness :
    ((rsCorrect (fun l => (false, l)) false ⟨0, [], []⟩).1 = false ↔
      (((fun (l : List Nat) => (false, l)) (rsBlockInput false ⟨0, [], []⟩ 0)).1 = false ∨
        ((fun (l : List Nat) => (false, l)) (rsBlockInput false ⟨0, [], []⟩ 1)).1 = false)) :=
  (c8_rsCorrect_failure_isolation (fun l => (false, l)) (fun l => (false, l))
    false ⟨0, [], []⟩ (fun _ => rfl)).1

/-- C3 counterexample: at block 0, data-symbol 0, the de-interleave
index `RS41_REEDSOLOMON_INTERLEAVING*i + block - 1` is `-1`, which does
not lie within the payload bounds `[0, payload length)` — the access
reads the `extended_flag` byte stored immediately before the payload. -/
theorem c3_first_block_index_negative :
    rsDataIndex 0 0 = -1 ∧ ¬ (0 ≤ rsDataIndex 0 0) := by
  constructor
  · simp [rsDataIndex]
  · simp [rsDataIndex]

/-- C3 amended: for every block `b` and data-symbol index `i`, the
access index lies in `[-1, payload length)`; it equals `-1` exactly for
`b = 0, i = 0` (the extended-flag byte immediately preceding the
payload), and every other access lies within the payload bounds. -/
theorem c3_rs_deinterleave_bounds (extended : Bool) (b i : Nat)
    (hb : b < RS41_REEDSOLOMON_INTERLEAVING) (hi : i < chunkLen extended) :
    (-1 ≤ rsDataIndex b i ∧
      rsDataIndex b i < (bytesLeftFor extended : ℤ)) ∧
    (rsDataIndex b i = -1 ↔ b = 0 ∧ i = 0) ∧
    (0 ≤ rsDataIndex b i ↔ ¬ (b = 0 ∧ i = 0)) := by
  have hb2 : b < 2 := hb
  cases extended with
  | false =>
    have hi' : i < 132 := by
      simpa [chunkLen, RS41_DATA_LEN, RS41_REEDSOLOMON_INTERLEAVING] using hi
    simp only [rsDataIndex, bytesLeftFor, RS41_DATA_LEN, RS41_XDATA_LEN,
      RS41_REEDSOLOMON_INTERLEAVING, if_false, Bool.false_eq_true]
    refine ⟨⟨by push_cast; omega, by push_cast; omega⟩, ?_, ?_⟩
    · constructor
      · intro h
        push_cast at h
        omega
      · rintro ⟨hb0, hi0⟩
        subst hb0
        subst hi0
        simp
    · constructor
      · intro h
        push_cast at h
        omega
      · intro h
        push_cast
        omega
  | true =>
    have hi' : i < 231 := by
      simpa [chunkLen, RS41_REEDSOLOMON_K] using hi
    simp only [rsDataIndex, bytesLeftFor, RS41_DATA_LEN, RS41_XDATA_LEN,
      RS41_REEDSOLOMON_INTERLEAVING, if_true]
    refine ⟨⟨by push_cast; omega, by push_cast; omega⟩, ?_, ?_⟩
    · constructor
      · intro h
        push_cast at h
        omega
      · rintro ⟨hb0, hi0⟩
        subst hb0
        subst hi0
        simp
    · constructor
      · intro h
        push_cast at h
        omega
      · intro h
        push_cast
        omega

/-- Witness for the amended C3 bounds at block 1, symbol 0 of a normal
frame. -/
theorem c3_rs_deinterleave_bounds_witness :
    (-1 ≤ rsDataIndex 1 0 ∧ rsDataIndex 1 0 < (bytesLeftFor false : ℤ)) ∧
    (rsDataIndex 1 0 = -1 ↔ (1 = 0 ∧ 0 = 0)) ∧
    (0 ≤ rsDataIndex 1 0 ↔ ¬ ((1 = 0) ∧ (0 = 0))) :=
  c3_rs_deinterleave_bounds false 1 0 (by decide) (by decide)

/-! ## Telemetry computer (`temp`, `rh_temp`, `rh`, `pressure`,
`updateSondeData`; claims C6, C7, C9)

Single-precision float arithmetic is modelled over `ℚ`.  The ADC words
are 24-bit integers, exactly representable; the reference-span test
`adc_ref2 - adc_ref1 == 0` is exact in float for such values, so the
branch structure is preserved faithfully.  The IEEE NaN sentinel is
modelled as `Option.none`: an early `return NAN` is `none`, and where
the source lets a NaN flow through arithmetic the model mirrors the C99
result (in `rh`, a NaN reaching `fmax(0.0, fmin(100.0, rh_cal))` yields
`100.0`, since `fmin`/`fmax` return their non-NaN operand).

The calibration record holds the coefficients `temp`/`rh`/`rh_temp`
read; its layout byte-offsets (the fragment reassembly aliasing) are not
modelled.  GPS coordinate conversion, dew point, saturation vapor
pressure, the standard-atmosphere fallback, GPS time conversion and
XDATA decoding are external collaborator functions (spec sections 4.7
and 6) and are abstracted as parameters. -/

/-- The calibration coefficients used by the telemetry computer
(fields of `RS41Calibration` in the missing `rs41.h`). -/
structure RS41Calibration where
  t_ref : Fin 2 → ℚ
  t_calib_coeff : Fin 7 → ℚ
  t_temp_poly : Fin 3 → ℚ
  th_calib_coeff : Fin 7 → ℚ
  th_temp_poly : Fin 3 → ℚ
  rh_ref : Fin 2 → ℚ
  rh_cap_calib : Fin 2 → ℚ
  rh_calib_coeff : Fin 7 → Fin 6 → ℚ
  burstkill_timer : Nat

/-- The nine 3-byte ADC words of a PTU subframe (each stored as three
little-endian bytes in the subframe). -/
structure RS41Subframe_PTU where
  temp_main : Nat × Nat × Nat
  temp_ref1 : Nat × Nat × Nat
  temp_ref2 : Nat × Nat × Nat
  humidity_main : Nat × Nat × Nat
  humidity_ref1 : Nat × Nat × Nat
  humidity_ref2 : Nat × Nat × Nat
  temp_humidity_main : Nat × Nat × Nat
  temp_humidity_ref1 : Nat × Nat × Nat
  temp_humidity_ref2 : Nat × Nat × Nat

/-- Assembling an ADC word from its three bytes
(`b[0] | b[1] << 8 | b[2] << 16`, lines 336-344). -/
def adc24 (t : Nat × Nat × Nat) : ℚ :=
  ((t.1 ||| t.2.1 <<< 8 ||| t.2.2 <<< 16 : Nat) : ℚ)

/-- The calibration-correction loop of lines 364-368 (and 398-402):
`t_cal = 0; for (i=6; i>0; i--) { t_cal *= u; t_cal += c[i]; }`. -/
def hornerLoop (c : Fin 7 → ℚ) (u : ℚ) : ℚ :=
  List.foldl (fun acc i => acc * u + c i) 0 [6, 5, 4, 3, 2, 1]

/-- `RS41Decoder::temp` (lines 333-372) with NaN as `none`. -/
def temp (ptu : RS41Subframe_PTU) (cal : RS41Calibration) : Option ℚ :=
  let adc_main := adc24 ptu.temp_main
  let adc_ref1 := adc24 ptu.temp_ref1
  let adc_ref2 := adc24 ptu.temp_ref2
  if adc_ref2 - adc_ref1 = 0 then none
  else
    let adc_raw := (adc_main - adc_ref1) / (adc_ref2 - adc_ref1)
    let r_raw := cal.t_ref 0 + (cal.t_ref 1 - cal.t_ref 0) * adc_raw
    let r_t := r_raw * cal.t_calib_coeff 0
    let t_uncal := cal.t_temp_poly 0 + cal.t_temp_poly 1 * r_t +
      cal.t_temp_poly 2 * r_t * r_t
    some (hornerLoop cal.t_calib_coeff t_uncal + t_uncal)

/-- `RS41Decoder::rh_temp` (lines 428-460) with NaN as `none`; note the
source checks the shared temperature reference resistances `t_ref` and
interpolates between them. -/
def rh_temp (ptu : RS41Subframe_PTU) (cal : RS41Calibration) : Option ℚ :=
  let adc_main := adc24 ptu.temp_humidity_main
  let adc_ref1 := adc24 ptu.temp_humidity_ref1
  let adc_ref2 := adc24 ptu.temp_humidity_ref2
  if adc_ref2 - adc_ref1 = 0 then none
  else if cal.t_ref 0 = 0 ∨ cal.t_ref 1 = 0 then none
  else
    let adc_raw := (adc_main - adc_ref1) / (adc_ref2 - adc_ref1)
    let r_raw := cal.t_ref 0 + adc_raw * (cal.t_ref 1 - cal.t_ref 0)
    let r_t := r_raw * cal.th_calib_coeff 0
    some (cal.th_temp_poly 0 + cal.th_temp_poly 1 * r_t +
      cal.th_temp_poly 2 * r_t * r_t)

/-- The 7x6 polynomial surface loop of lines 411-421, with the exact
`f1`/`f2` running-product state of the source. -/
def rhSurface (c_cal rtc : ℚ) (coeff : Fin 7 → Fin 6 → ℚ) : ℚ :=
  ((List.finRange 7).foldl (fun (p : ℚ × ℚ) i =>
    (((List.finRange 6).foldl (fun (q : ℚ × ℚ) j =>
      (q.1 + p.2 * q.2 * coeff i j, q.2 * rtc)) (p.1, 1)).1,
     p.2 * c_cal)) (0, 1)).1

/-- `RS41Decoder::rh` (lines 374-426) with NaN as `none`; `wv` is the
`wv_sat_pressure` collaborator from `utils.h` (assumed NaN-strict, as
the C library functions are).  When `rh_temp` or `temp` is NaN the
clamp `fmax(0.0, fmin(100.0, NaN))` returns `100.0`. -/
def rh (ptu : RS41Subframe_PTU) (cal : RS41Calibration) (wv : ℚ → ℚ) : Option ℚ :=
  let adc_main := adc24 ptu.humidity_main
  let adc_ref1 := adc24 ptu.humidity_ref1
  let adc_ref2 := adc24 ptu.humidity_ref2
  if adc_ref2 - adc_ref1 = 0 then none
  else
    match rh_temp ptu cal, temp ptu cal with
    | some rh_temp_uncal, some t_temp =>
      let rh_temp_cal := hornerLoop cal.th_calib_coeff rh_temp_uncal + rh_temp_uncal
      let adc_raw := (adc_main - adc_ref1) / (adc_ref2 - adc_ref1)
      let c_raw := cal.rh_ref 0 + adc_raw * (cal.rh_ref 1 - cal.rh_ref 0)
      let c_cal := (c_raw / cal.rh_cap_calib 0 - 1) * cal.rh_cap_calib 1
      let rh_uncal := rhSurface c_cal ((rh_temp_cal - 20) / 180) cal.rh_calib_coeff
      let rh_cal := rh_uncal * wv rh_temp_uncal / wv t_temp
      some (max 0 (min 100 rh_cal))
    | _, _ => some 100

/-- `RS41Decoder::pressure` (lines 462-467): the unfinished stub,
`return 0`. -/
def pressure (ptu : RS41Subframe_PTU) : ℚ :=
  0

/-- Raw ECEF position/velocity of a GPS-position subframe
(centimeters, signed 32-bit fields). -/
structure GPSPosData where
  x : ℤ
  y : ℤ
  z : ℤ
  dx : ℤ
  dy : ℤ
  dz : ℤ

/-- The decoded subframe variants dispatched by `updateSondeData`
(lines 261-310). -/
inductive RS41SubframeData where
  | info (frame_seq : Nat) (serial : List Nat) (frag_seq : Nat)
  | ptu (p : RS41Subframe_PTU)
  | gpspos (g : GPSPosData)
  | gpsinfo (week : Nat) (ms : Nat)
  | xdata (bytes : List Nat)
  | gpsraw
  | empty

/-- The cumulative telemetry record `SondeData`. -/
structure SondeData where
  calibrated : Bool
  serial : List Nat
  burstkill : ℤ
  seq : Nat
  temp : Option ℚ
  rh : Option ℚ
  pressure : ℚ
  dewpt : Option ℚ
  lat : ℚ
  lon : ℚ
  alt : ℚ
  spd : ℚ
  hdg : ℚ
  climb : ℚ
  time : ℤ
  aux : List Nat

/-- The external collaborator functions called by `updateSondeData`
(spec section 6): coordinate transforms, dew point, saturation vapor
pressure, the standard-atmosphere pressure fallback, GPS time
conversion and XDATA decoding. -/
structure Collaborators where
  ecef_to_lla : ℚ → ℚ → ℚ → ℚ × ℚ × ℚ
  ecef_to_spd_hdg : ℚ → ℚ → ℚ → ℚ → ℚ → ℚ × ℚ × ℚ
  altitude_to_pressure : ℚ → ℚ
  dewpt : Option ℚ → Option ℚ → Option ℚ
  gps_time_to_utc : Nat → Nat → ℤ
  decodeXDATA : SondeData → List Nat → List Nat
  wv_sat_pressure : ℚ → ℚ

/-- `RS41Decoder::updateSondeData` (lines 248-311).  `hasPressureSensor`
is a local variable initialized `false` on every call (line 259), so in
the GPS-position case the standard-atmosphere fallback always runs. -/
def updateSondeData (co : Collaborators) (cal : RS41Calibration)
    (cs : CalibState) (info : SondeData) (sf : RS41SubframeData) :
    SondeData × CalibState :=
  match sf with
  | .info frame_seq serial frag_seq =>
    let cs' := updateCalibData cs frag_seq
    ({ info with
        calibrated := cs'.calibrated,
        serial := serial.take RS41_SERIAL_LEN,
        burstkill := if cal.burstkill_timer = 0xFFFF then -1
          else (cal.burstkill_timer : ℤ),
        seq := frame_seq }, cs')
  | .ptu p =>
    let info1 := { info with temp := temp p cal,
                             rh := rh p cal co.wv_sat_pressure }
    let info2 := if pressure p > 0 then { info1 with pressure := pressure p }
      else info1
    ({ info2 with dewpt := co.dewpt info2.temp info2.rh }, cs)
  | .gpspos g =>
    let lla := co.ecef_to_lla ((g.x : ℚ) / 100) ((g.y : ℚ) / 100) ((g.z : ℚ) / 100)
    let shc := co.ecef_to_spd_hdg lla.1 lla.2.1
      ((g.dx : ℚ) / 100) ((g.dy : ℚ) / 100) ((g.dz : ℚ) / 100)
    ({ info with
        lat := lla.1, lon := lla.2.1, alt := lla.2.2,
        spd := shc.1, hdg := shc.2.1, climb := shc.2.2,
        pressure := co.altitude_to_pressure lla.2.2 }, cs)
  | .gpsinfo week ms =>
    ({ info with time := co.gps_time_to_utc week ms }, cs)
  | .xdata bytes =>
    ({ info with aux := co.decodeXDATA info bytes }, cs)
  | .gpsraw => (info, cs)
  | .empty => (info, cs)

/-- C6: a zero reference span makes each of the three PTU computations
return the NaN sentinel (`rh_temp` also when either shared reference
resistance `t_ref[0]`, `t_ref[1]` is zero); the sentinel is stored in
the affected `SondeData` field by the PTU handler, which completes
normally (no decode failure, decoder state untouched). -/
theorem c6_degenerate_reference_nan (p : RS41Subframe_PTU)
    (cal : RS41Calibration) (wv : ℚ → ℚ) (co : Collaborators)
    (cs : CalibState) (info : SondeData) :
    (adc24 p.temp_ref2 - adc24 p.temp_ref1 = 0 → temp p cal = none) ∧
    (adc24 p.temp_humidity_ref2 - adc24 p.temp_humidity_ref1 = 0 →
      rh_temp p cal = none) ∧
    (cal.t_ref 0 = 0 ∨ cal.t_ref 1 = 0 → rh_temp p cal = none) ∧
    (adc24 p.humidity_ref2 - adc24 p.humidity_ref1 = 0 → rh p cal wv = none) ∧
    (adc24 p.temp_ref2 - adc24 p.temp_ref1 = 0 →
      (updateSondeData co cal cs info (.ptu p)).1.temp = none) ∧
    (adc24 p.humidity_ref2 - adc24 p.humidity_ref1 = 0 →
      (updateSondeData co cal cs info (.ptu p)).1.rh = none) ∧
    (updateSondeData co cal cs info (.ptu p)).2 = cs := by
  have htemp : adc24 p.temp_ref2 - adc24 p.temp_ref1 = 0 → temp p cal = none := by
    intro h
    rw [temp, if_pos h]
  have hrht : adc24 p.temp_humidity_ref2 - adc24 p.temp_humidity_ref1 = 0 →
      rh_temp p cal = none := by
    intro h
    rw [rh_temp, if_pos h]
  have hrht2 : cal.t_ref 0 = 0 ∨ cal.t_ref 1 = 0 → rh_temp p cal = none := by
    intro h
    rw [rh_temp]
    by_cases h1 : adc24 p.temp_humidity_ref2 - adc24 p.temp_humidity_ref1 = 0
    · rw [if_pos h1]
    · rw [if_neg h1, if_pos h]
  have hrh : ∀ w : ℚ → ℚ, adc24 p.humidity_ref2 - adc24 p.humidity_ref1 = 0 →
      rh p cal w = none := by
    intro w h
    rw [rh, if_pos h]
  have hnp : ¬ pressure p > 0 := by
    rw [pressure]
    norm_num
  have hf1 : (updateSondeData co cal cs info (.ptu p)).1.temp = temp p cal := by
    simp [updateSondeData, hnp]
  have hf2 : (updateSondeData co cal cs info (.ptu p)).1.rh =
      rh p cal co.wv_sat_pressure := by
    simp [updateSondeData, hnp]
  have hf3 : (updateSondeData co cal cs info (.ptu p)).2 = cs := by
    simp [updateSondeData, hnp]
  exact ⟨htemp, hrht, hrht2, hrh wv,
    fun h => by rw [hf1]; exact htemp h,
    fun h => by rw [hf2]; exact hrh _ h,
    hf3⟩

/-- Spec-side two-point linear interpolation between the calibration
reference values. -/
def linterp (a b t : ℚ) : ℚ :=
  a + (b - a) * t

/-- Spec-side fixed 2nd-degree resistance-to-temperature polynomial. -/
def poly2 (c : Fin 3 → ℚ) (x : ℚ) : ℚ :=
  c 0 + c 1 * x + c 2 * x * x

/-- Spec-side direct evaluation of the calibration-correction
polynomial: degree at most 5, the six coefficients
`t_calib_coeff[1] .. [6]`. -/
def calibPolyEval (c : Fin 7 → ℚ) (u : ℚ) : ℚ :=
  c 1 + c 2 * u + c 3 * u ^ 2 + c 4 * u ^ 3 + c 5 * u ^ 4 + c 6 * u ^ 5

/-- The source's Horner loop computes exactly that direct evaluation. -/
theorem hornerLoop_eq_calibPolyEval (c : Fin 7 → ℚ) (u : ℚ) :
    hornerLoop c u = calibPolyEval c u := by
  simp only [hornerLoop, List.foldl_cons, List.foldl_nil, calibPolyEval]
  ring

/-- C7 counterexample: the calibration correction the code evaluates by
Horner's method (6 iterations over `t_calib_coeff[6] .. [1]`) is a
polynomial of degree at most 5 in `t_uncal`; already for the concrete
all-ones calibration coefficients it is not the evaluation of any
6th-degree polynomial, refuting the claimed degree. -/
theorem c7_not_sixth_degree :
    ¬ ∃ q : Polynomial ℚ, q.natDegree = 6 ∧
      ∀ u : ℚ, hornerLoop (fun _ => 1) u = Polynomial.eval u q := by
  rintro ⟨q, hdeg, heval⟩
  have hP : ∀ u : ℚ, Polynomial.eval u
      (Polynomial.C 1 + Polynomial.X + Polynomial.X ^ 2 + Polynomial.X ^ 3 +
        Polynomial.X ^ 4 + Polynomial.X ^ 5 : Polynomial ℚ) =
      hornerLoop (fun _ => 1) u := by
    intro u
    simp only [hornerLoop, List.foldl_cons, List.foldl_nil, Polynomial.eval_add,
      Polynomial.eval_pow, Polynomial.eval_X, Polynomial.eval_C]
    ring
  have hqP : q = Polynomial.C 1 + Polynomial.X + Polynomial.X ^ 2 +
      Polynomial.X ^ 3 + Polynomial.X ^ 4 + Polynomial.X ^ 5 := by
    apply Polynomial.funext
    intro u
    rw [← heval u, hP u]
  have hq0 : q ≠ 0 := by
    intro h0
    rw [h0, Polynomial.natDegree_zero] at hdeg
    exact absurd hdeg (by norm_num)
  have hlead : q.coeff 6 ≠ 0 := by
    have := Polynomial.leadingCoeff_ne_zero.mpr hq0
    rwa [Polynomial.leadingCoeff, hdeg] at this
  apply hlead
  rw [hqP]
  simp only [Polynomial.coeff_add, Polynomial.coeff_C, Polynomial.coeff_X,
    Polynomial.coeff_X_pow]
  norm_num

/-- C7 (amended): for unequal reference channels the temperature is the
two-point interpolation between `t_ref[0]`, `t_ref[1]` times the gain
`t_calib_coeff[0]`, pushed through the fixed 2nd-degree polynomial to
`t_uncal`, plus the Horner-evaluated correction polynomial of degree at
most 5 with the six coefficients `t_calib_coeff[1] .. [6]`. -/
theorem c7_temp_formula (p : RS41Subframe_PTU) (cal : RS41Calibration)
    (h : adc24 p.temp_ref2 - adc24 p.temp_ref1 ≠ 0) :
    (temp p cal = some (
      let t_uncal := poly2 cal.t_temp_poly
        (linterp (cal.t_ref 0) (cal.t_ref 1)
          ((adc24 p.temp_main - adc24 p.temp_ref1) /
            (adc24 p.temp_ref2 - adc24 p.temp_ref1)) * cal.t_calib_coeff 0)
      t_uncal + calibPolyEval cal.t_calib_coeff t_uncal)) ∧
    (∀ c : Fin 7 → ℚ, ∀ u : ℚ, hornerLoop c u = calibPolyEval c u) := by
  refine ⟨?_, hornerLoop_eq_calibPolyEval⟩
  rw [temp, if_neg h]
  refine congrArg some ?_
  rw [hornerLoop_eq_calibPolyEval]
  simp only [linterp, poly2]
  ring

/-- Witness for the amended C7 at a concrete PTU word set and the
all-ones calibration table. -/
theorem c7_temp_formula_witness :
    (temp ⟨(1, 0, 0), (0, 0, 0), (2, 0, 0), (0, 0, 0), (0, 0, 0), (0, 0, 0),
          (0, 0, 0), (0, 0, 0), (0, 0, 0)⟩
      ⟨fun _ => 1, fun _ => 1, fun _ => 1, fun _ => 1, fun _ => 1, fun _ => 1,
       fun _ => 1, fun _ _ => 1, 0⟩ = some (
      let t_uncal := poly2 (fun _ => 1)
        (linterp ((fun _ => (1 : ℚ)) 0) ((fun _ => (1 : ℚ)) 1)
          ((adc24 (1, 0, 0) - adc24 (0, 0, 0)) /
            (adc24 (2, 0, 0) - adc24 (0, 0, 0))) * (fun _ => (1 : ℚ)) 0)
      t_uncal + calibPolyEval (fun _ => 1) t_uncal)) ∧
    (∀ c : Fin 7 → ℚ, ∀ u : ℚ, hornerLoop c u = calibPolyEval c u) :=
  c7_temp_formula _ _ (by norm_num [adc24])

/-- C9: the pressure path.  The direct-measurement stub never reports a
positive pressure, so the PTU handler never writes the pressure field;
the only writer is the GPS-position handler's altitude-derived
standard-atmosphere fallback. -/
theorem c9_pressure_stub_fallback (p : RS41Subframe_PTU) (co : Collaborators)
    (cal : RS41Calibration) (cs : CalibState) (info : SondeData)
    (g : GPSPosData) :
    pressure p = 0 ∧
    ¬ (0 < pressure p) ∧
    (updateSondeData co cal cs info (.ptu p)).1.pressure = info.pressure ∧
    ((updateSondeData co cal cs info (.gpspos g)).1.pressure =
      co.altitude_to_pressure
        (co.ecef_to_lla ((g.x : ℚ) / 100) ((g.y : ℚ) / 100) ((g.z : ℚ) / 100)).2.2) ∧
    (∀ sf : RS41SubframeData, (∀ g' : GPSPosData, sf ≠ .gpspos g') →
      (updateSondeData co cal cs info sf).1.pressure = info.pressure) := by
  have hnp : ¬ pressure p > 0 := by
    rw [pressure]
    norm_num
  refine ⟨rfl, by rw [pressure]; norm_num, ?_, rfl, ?_⟩
  · simp only [updateSondeData, if_neg hnp]
  · intro sf hsf
    cases sf with
    | info a b c => rfl
    | ptu p' =>
      have hnp' : ¬ pressure p' > 0 := by
        rw [pressure]
        norm_num
      simp only [updateSondeData, if_neg hnp']
    | gpspos g' => exact absurd rfl (hsf g')
    | gpsinfo w m => rfl
    | xdata b => rfl
    | gpsraw => rfl
    | empty => rfl

end RS41
